import Mathlib

/-!
Verification of the agentic-planner-cli repository against its
natural-language specification. The Python sources (planner.py, main.py,
tools.py, config.py) are shallowly embedded below: strings are `String`
(lists of characters), Python dictionaries are association lists with
most-recent-insertion-first lookup, fallible calls are `Option`/`Except`,
and the model/tool invocations appearing at the component boundaries are
uninterpreted function parameters.
-/

namespace AgenticPlanner

/-! ## Python string primitives

Character-level building blocks mirroring the Python `str` operations the
sources use: `strip`, `lower`, substring containment (`in`), and
`replace` with an empty replacement.
-/

/-- Whitespace set of Python `str.strip` (ASCII part): space, tab,
newline, carriage return, vertical tab, form feed. -/
def isPyWs (c : Char) : Bool :=
  c == ' ' || c == '\t' || c == '\n' || c == '\r' ||
    c == Char.ofNat 11 || c == Char.ofNat 12

/-- Drop leading whitespace. -/
def pyStripLeft (l : List Char) : List Char := l.dropWhile isPyWs

/-- Python `str.strip`: drop whitespace from both ends. -/
def pyStrip (l : List Char) : List Char :=
  (pyStripLeft (pyStripLeft l).reverse).reverse

/-- Python `str.lower` (ASCII approximation, `Char.toLower`). -/
def lowerChars (l : List Char) : List Char := l.map Char.toLower

/-! ## Plan generator (src/planner.py) -/

/-- Python `str.split` on a single separator character: every occurrence
splits, empty pieces are kept. -/
def splitOnChar (sep : Char) : List Char → List (List Char)
  | [] => [[]]
  | c :: rest =>
    match splitOnChar sep rest with
    | [] => [[c]]
    | l :: ls => if c = sep then [] :: l :: ls else (c :: l) :: ls

/-- Python `s.replace(pat, "")` with explicit fuel: scan left to right,
drop the pattern whenever it is a prefix of the remaining text, otherwise
keep one character.  Fuel at least `l.length` suffices. -/
def replaceAllFuel (pat : List Char) : Nat → List Char → List Char
  | _, [] => []
  | 0, l => l
  | fuel + 1, c :: rest =>
    if pat ≠ [] ∧ pat.isPrefixOf (c :: rest) then
      replaceAllFuel pat fuel (List.drop pat.length (c :: rest))
    else
      c :: replaceAllFuel pat fuel rest

/-- Python `s.replace(pat, "")`. -/
def replaceAll (pat l : List Char) : List Char := replaceAllFuel pat l.length l

namespace Planner

/-- One planned step: a tool name and its argument
(planner.py builds dictionaries `\x7b'tool': ..., 'argument': ...\x7d`). -/
structure Step where
  tool : String
  argument : String
deriving DecidableEq

/-- Search-query derivation, planner.py line 64:
`goal.replace("Find information about ", "").replace("Research ", "").replace("Explain ", "")`.
Python `str.replace` removes every occurrence, not only a leading one. -/
def searchQuery (goal : String) : String :=
  ⟨replaceAll "Explain ".data
    (replaceAll "Research ".data
      (replaceAll "Find information about ".data goal.data))⟩

/-- The hard-coded two-step fallback plan (planner.py lines 114-117,
130-133 and 167-170). -/
def fallbackSteps (q : String) : List Step :=
  [⟨"search_web", q⟩, ⟨"summarize_text", "search results"⟩]

/-- Loop body of `Planner._parse_steps` (planner.py lines 148-163) for one
line: strip it, skip it when empty, then append a `search_web` step if the
lowered line contains `"search_web"` and a `summarize_text` step if it
contains `"summarize_text"` (two independent `if`s, search first). -/
def lineSteps (q : String) (line : List Char) : List Step :=
  let line := pyStrip line
  if line = [] then []
  else
    (if "search_web".data <:+: lowerChars line then [⟨"search_web", q⟩] else []) ++
      (if "summarize_text".data <:+: lowerChars line then
        [⟨"summarize_text", "search results"⟩] else [])

/-- The `for line in lines` loop of `Planner._parse_steps`
(planner.py lines 148-163): accumulate the per-line steps in order. -/
def parseLoop (q : String) : List (List Char) → List Step
  | [] => []
  | line :: rest => lineSteps q line ++ parseLoop q rest

/-- `Planner._parse_steps` (planner.py lines 135-172): split the model
output on newlines, scan every line, and fall back to the default
two-step plan when no step was recognized. -/
def parse_steps (planText : String) (q : String) : List Step :=
  let steps := parseLoop q (splitOnChar '\n' planText.data)
  if steps = [] then fallbackSteps q else steps

/-- The instruction prompt built by `Planner.plan` (planner.py lines 70-82). -/
def prompt (goal : String) : String :=
  "Create a 2-step plan to achieve this goal using these tools:\n\n" ++
  "Available tools:\n- search_web: searches the web\n- summarize_text: summarizes text\n\n" ++
  "Goal: " ++ goal ++ "\n\n" ++
  "Output format:\nStep 1: search_web(search query here)\n" ++
  "Step 2: summarize_text(search results)\n\nPlan:"

/-- `Planner.plan` (planner.py lines 51-133).  The generator call is the
uninterpreted `model` parameter: `Except.error` models the call raising,
`Except.ok` models the generated text.  Any exception is caught and
replaced by the fallback plan, so the embedded function is total: it
returns a plain `List Step`, mirroring "never raises". -/
def plan (model : String → Except String String) (goal : String) : List Step :=
  let search_query := searchQuery goal
  match model (prompt goal) with
  | Except.error _ => fallbackSteps search_query
  | Except.ok generated_text =>
    let steps := parse_steps generated_text search_query
    if steps = [] then fallbackSteps search_query else steps

/-- Per-line contribution as the specification words it: a line containing
`"search_web"` (case-insensitively) appends a search step carrying the
derived query; a line containing `"summarize_text"` appends a summarize
step carrying the literal `"search results"`; a line containing both
appends both, search first; nothing else in the line matters. -/
def specLineSteps (q : String) (line : List Char) : List Step :=
  (if "search_web".data <:+: lowerChars line then [⟨"search_web", q⟩] else []) ++
    (if "summarize_text".data <:+: lowerChars line then
      [⟨"summarize_text", "search results"⟩] else [])

/-- Model that always raises, used to witness claim C1. -/
def failingModel : String → Except String String := fun _ => Except.error "inference failed"

end Planner

/-! ## Step executor (src/main.py, class Executor) -/

namespace Executor

/-- The execution context `self.context`: a Python dict embedded as an
association list where the most recent insertion is consulted first. -/
abbrev Ctx := List (String × String)

/-- Dictionary lookup (`key in dict` / `dict[key]`). -/
def ctxGet (k : String) : Ctx → Option String
  | [] => none
  | (k', v) :: t => if k = k' then some v else ctxGet k t

/-- Observable trace of one executed step: the tool that ran, the actual
argument dispatched to it (the local `argument` variable of main.py after
context substitution), and the recorded result. -/
structure Outcome where
  tool : String
  argUsed : String
  result : String
deriving DecidableEq

/-- Placeholder recorded when a tool returns `None` (main.py line 78). -/
def noneResult (tool : String) : String := "Tool " ++ tool ++ " returned no result"

/-- Per-step context key `"step_{i+1}_result"` (main.py line 90). -/
def stepKey (i : Nat) : String := "step_" ++ toString (i + 1) ++ "_result"

/-- Loop body of `Executor.execute_plan` (main.py lines 56-96) at loop
index `i`.  `tools` is the uninterpreted Tool Dispatcher; `none` models a
Python `None` return.  Substitutes the stored `last_search_result` for
the literal argument `"search results"`, dispatches, replaces a `None`
result by the placeholder, records `step_{i+1}_result`, and stores
`last_search_result` after a `search_web` step. -/
def execStep (tools : String → String → Option String) (ctx : Ctx) (i : Nat)
    (step : Planner.Step) : Ctx × Outcome :=
  let argument :=
    if step.argument = "search results" ∧ (ctxGet "last_search_result" ctx).isSome then
      (ctxGet "last_search_result" ctx).getD step.argument
    else step.argument
  let result :=
    match tools step.tool argument with
    | none => noneResult step.tool
    | some r => r
  let ctx1 := (stepKey i, result) :: ctx
  let ctx2 := if step.tool = "search_web" then ("last_search_result", result) :: ctx1 else ctx1
  (ctx2, ⟨step.tool, argument, result⟩)

/-- The `for i, step in enumerate(...)` loop of `Executor.execute_plan`,
threading the context and collecting the per-step outcomes in order. -/
def runAux (tools : String → String → Option String) :
    List Planner.Step → Ctx → Nat → Ctx × List Outcome
  | [], ctx, _ => (ctx, [])
  | s :: rest, ctx, i =>
    let p := execStep tools ctx i s
    let q := runAux tools rest p.1 (i + 1)
    (q.1, p.2 :: q.2)

/-- Result aggregation of `Executor.execute_plan` (main.py lines 102-106):
a single result is returned verbatim, otherwise the results are joined
with a blank line, each prefixed by its one-based step label. -/
def aggregate (results : List String) : String :=
  match results with
  | [r] => r
  | _ =>
    String.intercalate "\n\n"
      ((results.enum).map fun p => "Step " ++ toString (p.1 + 1) ++ " result:\n" ++ p.2)

/-- Final state of one `execute_plan` call: the mutated `self.context`,
the per-step outcomes, and the returned string. -/
structure ExecResult where
  context : Ctx
  outcomes : List Outcome
  output : String

/-- `Executor.execute_plan` (main.py lines 38-106): run the plan truncated
to `maxSteps` entries (`steps[:self.max_steps]`) over the given context. -/
def execute_plan (tools : String → String → Option String) (maxSteps : Nat)
    (ctx : Ctx) (steps : List Planner.Step) : ExecResult :=
  let r := runAux tools (steps.take maxSteps) ctx 0
  ⟨r.1, r.2, aggregate (r.2.map fun o => o.result)⟩

/-- Sample dispatcher for witnesses: echoes its argument. -/
def echoTool : String → String → Option String := fun _ arg => some ("R:" ++ arg)

/-- Sample dispatcher returning an empty (but not null) result. -/
def emptyTool : String → String → Option String := fun _ _ => some ""

/-- Dispatcher returning null, used to witness claim C7. -/
def nullTool : String → String → Option String := fun _ _ => none

end Executor

/-! ## Tools (src/tools.py, class Tools) -/

namespace Tools

/-- A successfully decoded search response (`response.json()` in
tools.py).  `Abstract`/`Answer`: `none` models a missing key, `some s`
a string value (Python falsiness makes `some ""` behave like missing).
`RelatedTopics` entries: `some t` models a dict entry whose `Text`
field is `t`; `none` models a non-dict entry or one without `Text`. -/
structure SearchData where
  Abstract : Option String
  Answer : Option String
  RelatedTopics : Option (List (Option String))

/-- The `results` list built by `Tools.search_web` after a successful
decode (tools.py lines 107-128): append the Abstract section, then the
Answer section, then a `"Related: "` line for each of the first three
related topics that are dicts with a non-empty `Text`. -/
def codeSections (data : SearchData) : List String :=
  let results : List String := []
  let results :=
    match data.Abstract with
    | some a => if a = "" then results else results ++ ["Abstract: " ++ a]
    | none => results
  let results :=
    match data.Answer with
    | some a => if a = "" then results else results ++ ["Answer: " ++ a]
    | none => results
  match data.RelatedTopics with
  | some topics =>
    if topics = [] then results
    else
      results ++ (topics.take 3).filterMap fun t =>
        match t with
        | some txt => if txt = "" then none else some ("Related: " ++ txt)
        | none => none
  | none => results

/-- Formatting of `Tools.search_web` after a successful decode
(tools.py lines 130-139): join the built sections with newlines, or
report no detailed results when none was found. -/
def search_web_format (query : String) (data : SearchData) : String :=
  if codeSections data = [] then "No detailed results found for '" ++ query ++ "'"
  else String.intercalate "\n" (codeSections data)

/-- The present sections in the fixed priority order the specification
states: the Abstract field first, then the Answer field, then the texts
of the first three Related-topic entries, each with its section label. -/
def specSections (data : SearchData) : List String :=
  (match data.Abstract with
    | some a => if a = "" then [] else ["Abstract: " ++ a]
    | none => []) ++
    (match data.Answer with
      | some a => if a = "" then [] else ["Answer: " ++ a]
      | none => []) ++
    (match data.RelatedTopics with
      | some topics =>
        (topics.take 3).filterMap fun t =>
          match t with
          | some txt => if txt = "" then none else some ("Related: " ++ txt)
          | none => none
      | none => [])

end Tools

/-! ## CLI entry point (src/main.py, function main) -/

namespace CLI

/-- config.py: MIN_GOAL_LENGTH. -/
def MIN_GOAL_LENGTH : Nat := 5

/-- config.py: MAX_GOAL_LENGTH. -/
def MAX_GOAL_LENGTH : Nat := 200

/-- Blocked punctuation (main.py line 150); `Char.ofNat 96` is the
backquote character. -/
def invalidChars : List Char := ['<', '>', '&', '|', ';', Char.ofNat 96]

/-- main.py line 156. -/
def mathPatterns : List String :=
  ["calculate", "compute", "solve", "=", "+", "-", "*", "/", "math"]

/-- main.py line 157. -/
def codePatterns : List String :=
  ["write code", "write python", "write java", "implement", "debug", "fix bug", "program"]

/-- Goal validation of `main` (main.py lines 133-167), applied to the raw
positional argument.  `none` means one of the checks fired: an error
message is printed and the process exits with code 1 before the Planner
and the Executor are constructed (construction happens at main.py lines
178-179, after every check).  `some goal` means validation passed and the
pipeline runs with the stripped goal. -/
def validateGoal (raw : String) : Option String :=
  let goal := pyStrip raw.data
  if goal = [] then none
  else if goal.length < MIN_GOAL_LENGTH then none
  else if MAX_GOAL_LENGTH < goal.length then none
  else if goal.any (fun c => invalidChars.contains c) then none
  else if mathPatterns.any (fun p => decide (p.data <:+: lowerChars goal)) then none
  else if codePatterns.any (fun p => decide (p.data <:+: lowerChars goal)) then none
  else some ⟨goal⟩

end CLI

/-! ## Theorems

Everything below proves properties of the definitions above: first the
string-primitive lemmas, then per-component results, the claim theorems
among them. -/

/-! ### Occurrence lemmas

`pat <:+: l` is "pat occurs as a contiguous substring of l"; these
lemmas relate it to `hasSub`, `pyStrip` and `lowerChars`.
-/

theorem occ_of_pre {pat l : List Char} (h : pat <+: l) : pat <:+: l := by
  obtain ⟨t, ht⟩ := h
  exact ⟨[], t, by simpa using ht⟩

theorem occ_nil {pat : List Char} (h : pat <:+: ([] : List Char)) : pat = [] := by
  obtain ⟨s, t, hst⟩ := h
  have h1 : s ++ pat ++ t = [] := hst
  simp only [List.append_eq_nil] at h1
  exact h1.1.2

theorem occ_cons {pat l : List Char} {c : Char} (h : pat <:+: l) : pat <:+: c :: l := by
  obtain ⟨s, t, rfl⟩ := h
  exact ⟨c :: s, t, rfl⟩

theorem occ_cons_cases {pat l : List Char} {c : Char} (h : pat <:+: c :: l) :
    pat <+: c :: l ∨ pat <:+: l := by
  obtain ⟨s, t, hst⟩ := h
  cases s with
  | nil =>
    left
    exact ⟨t, by simpa using hst⟩
  | cons a s' =>
    right
    have h1 : a :: (s' ++ pat ++ t) = c :: l := by simpa using hst
    have h2 : s' ++ pat ++ t = l := (List.cons.injEq _ _ _ _ ▸ h1).2
    exact ⟨s', t, h2⟩

theorem occ_trans {a b c : List Char} (h1 : a <:+: b) (h2 : b <:+: c) : a <:+: c := by
  obtain ⟨s1, t1, rfl⟩ := h1
  obtain ⟨s2, t2, rfl⟩ := h2
  exact ⟨s2 ++ s1, t1 ++ t2, by simp⟩

theorem occ_map {pat l : List Char} (f : Char → Char) (h : pat <:+: l) :
    pat.map f <:+: l.map f := by
  obtain ⟨s, t, rfl⟩ := h
  exact ⟨s.map f, t.map f, by simp⟩

theorem occ_rev {pat l : List Char} (h : pat <:+: l) : pat.reverse <:+: l.reverse := by
  obtain ⟨s, t, rfl⟩ := h
  exact ⟨t.reverse, s.reverse, by simp⟩

theorem toLower_ws {c : Char} (h : isPyWs c = true) : c.toLower = c := by
  simp only [isPyWs, Bool.or_eq_true, beq_iff_eq] at h
  rcases h with ((((h | h) | h) | h) | h) | h <;> subst h <;> decide

theorem occ_lower_stripLeft {pat l : List Char} (hws : ∀ c ∈ pat, isPyWs c = false)
    (h : pat <:+: lowerChars l) : pat <:+: lowerChars (pyStripLeft l) := by
  induction l with
  | nil => simpa [pyStripLeft] using h
  | cons c t ih =>
    by_cases hc : isPyWs c = true
    · have hl : pyStripLeft (c :: t) = pyStripLeft t := by
        simp [pyStripLeft, List.dropWhile_cons, hc]
      rw [hl]
      have h' : pat <:+: Char.toLower c :: lowerChars t := by
        simpa [lowerChars] using h
      rcases occ_cons_cases h' with hp | ho
      · cases pat with
        | nil => exact ⟨[], lowerChars (pyStripLeft t), by simp⟩
        | cons p0 ps =>
          obtain ⟨t0, ht0⟩ := hp
          have h1 : p0 :: (ps ++ t0) = Char.toLower c :: lowerChars t := by
            simpa using ht0
          have hp0 : p0 = Char.toLower c := (List.cons.injEq _ _ _ _ ▸ h1).1
          have hlc : Char.toLower c = c := toLower_ws hc
          have hws0 : isPyWs p0 = false := hws p0 (by simp)
          rw [hp0, hlc] at hws0
          rw [hws0] at hc
          cases hc
      · exact ih ho
    · have hl : pyStripLeft (c :: t) = c :: t := by
        simp only [Bool.not_eq_true] at hc
        simp [pyStripLeft, List.dropWhile_cons, hc]
      rw [hl]
      exact h

theorem ws_rev {pat : List Char} (hws : ∀ c ∈ pat, isPyWs c = false) :
    ∀ c ∈ pat.reverse, isPyWs c = false := by
  intro c hc
  exact hws c (List.mem_reverse.mp hc)

theorem occ_lower_strip {pat l : List Char} (hws : ∀ c ∈ pat, isPyWs c = false)
    (h : pat <:+: lowerChars l) : pat <:+: lowerChars (pyStrip l) := by
  have h1 := occ_lower_stripLeft hws h
  have h2 : pat.reverse <:+: lowerChars (pyStripLeft l).reverse := by
    have h2a := occ_rev h1
    simpa [lowerChars, List.map_reverse] using h2a
  have h3 := occ_lower_stripLeft (ws_rev hws) h2
  have h4 := occ_rev h3
  simpa [pyStrip, lowerChars, List.map_reverse] using h4

theorem occ_of_suf {pat l : List Char} (h : pat <:+ l) : pat <:+: l := by
  obtain ⟨s, hs⟩ := h
  exact ⟨s, [], by simpa using hs⟩

theorem strip_occ (l : List Char) : pyStrip l <:+: l := by
  have h1 : pyStripLeft l <:+: l := occ_of_suf (List.dropWhile_suffix _)
  have h2 : pyStrip l <+: pyStripLeft l := by
    have h0 : List.dropWhile isPyWs (pyStripLeft l).reverse <:+ (pyStripLeft l).reverse :=
      List.dropWhile_suffix isPyWs
    obtain ⟨s, hs⟩ := h0
    refine ⟨s.reverse, ?_⟩
    have h3 := congrArg List.reverse hs
    simpa [pyStrip, pyStripLeft] using h3
  exact occ_trans (occ_of_pre h2) h1

theorem lower_strip_occ (l : List Char) : lowerChars (pyStrip l) <:+: lowerChars l :=
  occ_map _ (strip_occ l)

theorem lineCond_iff (pat line : List Char) (hws : ∀ c ∈ pat, isPyWs c = false) :
    pat <:+: lowerChars (pyStrip line) ↔ pat <:+: lowerChars line :=
  ⟨fun h => occ_trans h (lower_strip_occ line), fun h => occ_lower_strip hws h⟩

theorem replaceAllFuel_id (pat : List Char) :
    ∀ l, ¬ pat <:+: l → ∀ fuel, replaceAllFuel pat fuel l = l := by
  intro l
  induction l with
  | nil =>
    intro h fuel
    cases fuel <;> rfl
  | cons c t ih =>
    intro h fuel
    cases fuel with
    | zero => rfl
    | succ f =>
      have hpre : ¬ (pat ≠ [] ∧ pat.isPrefixOf (c :: t) = true) := by
        rintro ⟨hne, hp⟩
        exact h (occ_of_pre (List.isPrefixOf_iff_prefix.mp hp))
      have ht : ¬ pat <:+: t := fun h' => h (occ_cons h')
      show replaceAllFuel pat (f + 1) (c :: t) = c :: t
      simp only [replaceAllFuel]
      rw [if_neg hpre, ih ht f]

theorem replaceAll_id (pat l : List Char) (h : ¬ pat <:+: l) : replaceAll pat l = l :=
  replaceAllFuel_id pat l h l.length

namespace Planner

theorem lineSteps_eq_spec (q : String) (line : List Char) :
    lineSteps q line = specLineSteps q line := by
  have hws1 : ∀ c ∈ "search_web".data, isPyWs c = false := by decide
  have hws2 : ∀ c ∈ "summarize_text".data, isPyWs c = false := by decide
  have hiff1 := lineCond_iff "search_web".data line hws1
  have hiff2 := lineCond_iff "summarize_text".data line hws2
  by_cases hstrip : pyStrip line = []
  · have hn1 : ¬ "search_web".data <:+: lowerChars line := by
      intro h
      have h' := hiff1.mpr h
      rw [hstrip] at h'
      have h'' : "search_web".data = [] := by simpa [lowerChars] using h'
      exact absurd h'' (by decide)
    have hn2 : ¬ "summarize_text".data <:+: lowerChars line := by
      intro h
      have h' := hiff2.mpr h
      rw [hstrip] at h'
      have h'' : "summarize_text".data = [] := by simpa [lowerChars] using h'
      exact absurd h'' (by decide)
    simp [lineSteps, specLineSteps, hstrip, hn1, hn2]
  · simp only [lineSteps, specLineSteps, hstrip, if_false, hiff1, hiff2]

theorem parseLoop_eq_spec (q : String) (lines : List (List Char)) :
    parseLoop q lines =
      List.foldr (fun line acc => specLineSteps q line ++ acc) [] lines := by
  induction lines with
  | nil => rfl
  | cons line rest ih => simp [parseLoop, lineSteps_eq_spec, ih]

theorem parseLoop_nil_of (q : String) (lines : List (List Char))
    (h : ∀ line ∈ lines, ¬ ("search_web".data <:+: lowerChars line) ∧
      ¬ ("summarize_text".data <:+: lowerChars line)) :
    parseLoop q lines = [] := by
  induction lines with
  | nil => rfl
  | cons line rest ih =>
    have h0 := h line (by simp)
    have hrest : parseLoop q rest = [] := ih fun l hl => h l (by simp [hl])
    simp [parseLoop, lineSteps_eq_spec, specLineSteps, h0.1, h0.2, hrest]

theorem parse_steps_ne_nil (text q : String) : parse_steps text q ≠ [] := by
  unfold parse_steps
  by_cases h : parseLoop q (splitOnChar '\n' text.data) = []
  · simp [h, fallbackSteps]
  · simp [h]

theorem plan_ne_nil (model : String → Except String String) (goal : String) :
    plan model goal ≠ [] := by
  unfold plan
  cases model (prompt goal) with
  | error e => simp [fallbackSteps]
  | ok t =>
    by_cases h : parse_steps t (searchQuery goal) = []
    · simp [h, fallbackSteps]
    · simp [h]

/-- Claim C1: for every goal string, `Planner.plan` never raises (it is
embedded as a total function) and always returns a non-empty plan; if the
model invocation raises any exception, or line-scanning of the model
output finds neither recognized tool substring, the returned plan is
exactly the two-step fallback
`[search_web(derived search query), summarize_text("search results")]`. -/
theorem c1_plan_never_raises_fallback
    (model : String → Except String String) (goal : String)
    (h : (∃ e, model (prompt goal) = Except.error e) ∨
      (∃ t, model (prompt goal) = Except.ok t ∧
        ∀ line ∈ splitOnChar '\n' t.data,
          ¬ ("search_web".data <:+: lowerChars line) ∧
          ¬ ("summarize_text".data <:+: lowerChars line))) :
    plan model goal = fallbackSteps (searchQuery goal) ∧
      ∀ (m : String → Except String String) (g : String), plan m g ≠ [] := by
  refine ⟨?_, fun m g => plan_ne_nil m g⟩
  rcases h with ⟨e, he⟩ | ⟨t, ht, hlines⟩
  · simp [plan, he]
  · have hloop := parseLoop_nil_of (searchQuery goal) _ hlines
    have hparse : parse_steps t (searchQuery goal) = fallbackSteps (searchQuery goal) := by
      simp [parse_steps, hloop]
    simp [plan, ht, hparse, fallbackSteps]

/-- Witness for claim C1 at a concrete goal with a raising model. -/
theorem c1_witness :
    plan failingModel "Research cats" = fallbackSteps (searchQuery "Research cats") ∧
      ∀ (m : String → Except String String) (g : String), plan m g ≠ [] :=
  c1_plan_never_raises_fallback failingModel "Research cats"
    (Or.inl ⟨"inference failed", rfl⟩)

/-- Claim C5: line-scan parsing is exactly the per-line contribution the
specification describes — each line containing `"search_web"`
(case-insensitively) appends a search step with the derived query, each
line containing `"summarize_text"` appends a summarize step with the
literal `"search results"`, a line containing both appends both with
search first, and no other text in the line affects the steps. -/
theorem c5_line_scan (text q : String) :
    parseLoop q (splitOnChar '\n' text.data) =
      List.foldr (fun line acc => specLineSteps q line ++ acc) []
        (splitOnChar '\n' text.data) :=
  parseLoop_eq_spec q _

theorem lineSteps_count_sw (q : String) (line : List Char) :
    (lineSteps q line).countP (fun s => s.tool == "search_web") =
      if "search_web".data <:+: lowerChars line then 1 else 0 := by
  rw [lineSteps_eq_spec]
  unfold specLineSteps
  by_cases h1 : "search_web".data <:+: lowerChars line <;>
    by_cases h2 : "summarize_text".data <:+: lowerChars line <;>
      simp [h1, h2, List.countP_append, List.countP_cons]

theorem lineSteps_count_st (q : String) (line : List Char) :
    (lineSteps q line).countP (fun s => s.tool == "summarize_text") =
      if "summarize_text".data <:+: lowerChars line then 1 else 0 := by
  rw [lineSteps_eq_spec]
  unfold specLineSteps
  by_cases h1 : "search_web".data <:+: lowerChars line <;>
    by_cases h2 : "summarize_text".data <:+: lowerChars line <;>
      simp [h1, h2, List.countP_append, List.countP_cons]

theorem lineSteps_length (q : String) (line : List Char) :
    (lineSteps q line).length =
      (if "search_web".data <:+: lowerChars line then 1 else 0) +
        (if "summarize_text".data <:+: lowerChars line then 1 else 0) := by
  rw [lineSteps_eq_spec]
  unfold specLineSteps
  by_cases h1 : "search_web".data <:+: lowerChars line <;>
    by_cases h2 : "summarize_text".data <:+: lowerChars line <;>
      simp [h1, h2]

theorem parseLoop_count_sw (q : String) (lines : List (List Char)) :
    (parseLoop q lines).countP (fun s => s.tool == "search_web") =
      lines.countP (fun line => decide ("search_web".data <:+: lowerChars line)) := by
  induction lines with
  | nil => rfl
  | cons line rest ih =>
    simp only [parseLoop, List.countP_append, List.countP_cons, ih,
      lineSteps_count_sw]
    by_cases h : "search_web".data <:+: lowerChars line <;> simp [h] <;> omega

theorem parseLoop_count_st (q : String) (lines : List (List Char)) :
    (parseLoop q lines).countP (fun s => s.tool == "summarize_text") =
      lines.countP (fun line => decide ("summarize_text".data <:+: lowerChars line)) := by
  induction lines with
  | nil => rfl
  | cons line rest ih =>
    simp only [parseLoop, List.countP_append, List.countP_cons, ih,
      lineSteps_count_st]
    by_cases h : "summarize_text".data <:+: lowerChars line <;> simp [h] <;> omega

theorem parseLoop_length (q : String) (lines : List (List Char)) :
    (parseLoop q lines).length =
      lines.countP (fun line => decide ("search_web".data <:+: lowerChars line)) +
        lines.countP (fun line => decide ("summarize_text".data <:+: lowerChars line)) := by
  induction lines with
  | nil => rfl
  | cons line rest ih =>
    simp only [parseLoop, List.length_append, List.countP_cons, ih, lineSteps_length]
    by_cases h1 : "search_web".data <:+: lowerChars line <;>
      by_cases h2 : "summarize_text".data <:+: lowerChars line <;>
        simp [h1, h2] <;> omega

/-- Counterexample to claim C4 as stated: a model output whose three
lines each contain `"search_web"` parses to a plan of length 3 with
three `search_web` steps, so the parsed plan is neither bounded by 2 nor
limited to one step per tool. -/
theorem c4_counterexample :
    2 < (parse_steps "search_web\nsearch_web\nsearch_web" "the query").length ∧
      1 < (parse_steps "search_web\nsearch_web\nsearch_web" "the query").countP
        (fun s => s.tool == "search_web") := by decide

/-- Claim C4 (amended): the line scan appends at most one step of each
tool per line, so whenever at most one line of the model output contains
`"search_web"` (case-insensitively) and at most one line contains
`"summarize_text"`, the parsed plan has length at most 2 and contains at
most one `search_web` step and at most one `summarize_text` step; a model
output in which some tool substring occurs in several distinct lines
yields one step per such line and may exceed these bounds. -/
theorem c4_amended_per_line_bound (text q : String)
    (hsw : (splitOnChar '\n' text.data).countP
      (fun line => decide ("search_web".data <:+: lowerChars line)) ≤ 1)
    (hst : (splitOnChar '\n' text.data).countP
      (fun line => decide ("summarize_text".data <:+: lowerChars line)) ≤ 1) :
    (parse_steps text q).length ≤ 2 ∧
      (parse_steps text q).countP (fun s => s.tool == "search_web") ≤ 1 ∧
      (parse_steps text q).countP (fun s => s.tool == "summarize_text") ≤ 1 := by
  have hfb : (fallbackSteps q).length ≤ 2 ∧
      (fallbackSteps q).countP (fun s => s.tool == "search_web") ≤ 1 ∧
      (fallbackSteps q).countP (fun s => s.tool == "summarize_text") ≤ 1 := by
    refine ⟨by simp [fallbackSteps], ?_, ?_⟩ <;>
      simp [fallbackSteps, List.countP_cons]
  by_cases h : parseLoop q (splitOnChar '\n' text.data) = []
  · have heq : parse_steps text q = fallbackSteps q := by simp [parse_steps, h]
    rw [heq]
    exact hfb
  · have heq : parse_steps text q = parseLoop q (splitOnChar '\n' text.data) := by
      simp [parse_steps, h]
    rw [heq]
    refine ⟨?_, ?_, ?_⟩
    · rw [parseLoop_length]
      omega
    · rw [parseLoop_count_sw]
      exact hsw
    · rw [parseLoop_count_st]
      exact hst

/-- Witness for claim C4 (amended) at a concrete two-line model output
mentioning each tool once. -/
theorem c4_witness :
    (parse_steps "Step 1: search_web(cats)\nStep 2: summarize_text(search results)"
      "cats").length ≤ 2 ∧
      (parse_steps "Step 1: search_web(cats)\nStep 2: summarize_text(search results)"
        "cats").countP (fun s => s.tool == "search_web") ≤ 1 ∧
      (parse_steps "Step 1: search_web(cats)\nStep 2: summarize_text(search results)"
        "cats").countP (fun s => s.tool == "summarize_text") ≤ 1 :=
  c4_amended_per_line_bound
    "Step 1: search_web(cats)\nStep 2: summarize_text(search results)" "cats"
    (by decide) (by decide)

/-- Counterexample to claim C6 as stated: in the goal
`"Deep Research AI"` none of the three known phrases occurs as a leading
phrase, yet the derived search query is `"Deep AI"`, not the goal
verbatim — `str.replace` removes the mid-string occurrence too. -/
theorem c6_counterexample :
    (¬ ("Find information about ".data <+: "Deep Research AI".data)) ∧
      (¬ ("Research ".data <+: "Deep Research AI".data)) ∧
      (¬ ("Explain ".data <+: "Deep Research AI".data)) ∧
      searchQuery "Deep Research AI" ≠ "Deep Research AI" := by decide

/-- Claim C6 (amended): the derived search query is obtained by removing
every occurrence of the phrases `"Find information about "`,
`"Research "` and `"Explain "` anywhere in the goal (applied in that
order); for every goal in which none of these phrases occurs anywhere as
a substring, the derived search query equals the goal verbatim. -/
theorem c6_amended_verbatim (goal : String)
    (h1 : ¬ ("Find information about ".data <:+: goal.data))
    (h2 : ¬ ("Research ".data <:+: goal.data))
    (h3 : ¬ ("Explain ".data <:+: goal.data)) :
    searchQuery goal = goal := by
  unfold searchQuery
  rw [replaceAll_id _ _ h1, replaceAll_id _ _ h2, replaceAll_id _ _ h3]

/-- Witness for claim C6 (amended) at a concrete phrase-free goal. -/
theorem c6_witness : searchQuery "History of Rome" = "History of Rome" :=
  c6_amended_verbatim "History of Rome" (by decide) (by decide) (by decide)

end Planner

namespace Executor

theorem runAux_append (tools : String → String → Option String)
    (a b : List Planner.Step) (ctx : Ctx) (i : Nat) :
    runAux tools (a ++ b) ctx i =
      ((runAux tools b (runAux tools a ctx i).1 (i + a.length)).1,
        (runAux tools a ctx i).2 ++ (runAux tools b (runAux tools a ctx i).1 (i + a.length)).2) := by
  induction a generalizing ctx i with
  | nil => simp [runAux]
  | cons s t ih =>
    simp only [List.cons_append, runAux, List.append_eq, ih, List.length_cons]
    have harith : i + (t.length + 1) = i + 1 + t.length := by omega
    rw [harith]

theorem runAux_length (tools : String → String → Option String)
    (l : List Planner.Step) (ctx : Ctx) (i : Nat) :
    (runAux tools l ctx i).2.length = l.length := by
  induction l generalizing ctx i with
  | nil => rfl
  | cons s t ih => simp [runAux, ih]

theorem runAux_map_tool (tools : String → String → Option String)
    (l : List Planner.Step) (ctx : Ctx) (i : Nat) :
    (runAux tools l ctx i).2.map (fun o => o.tool) = l.map fun s => s.tool := by
  induction l generalizing ctx i with
  | nil => rfl
  | cons s t ih => simp [runAux, ih, execStep]

theorem execStep_ctx (tools : String → String → Option String) (ctx : Ctx) (i : Nat)
    (s : Planner.Step) : ∃ g : Ctx, (execStep tools ctx i s).1 = g ++ ctx := by
  by_cases h : s.tool = "search_web" <;> simp [execStep, h]
  · exact ⟨_ :: _ :: [], rfl⟩
  · exact ⟨_ :: [], rfl⟩

theorem runAux_ctx (tools : String → String → Option String)
    (l : List Planner.Step) (ctx : Ctx) (i : Nat) :
    ∃ g : Ctx, (runAux tools l ctx i).1 = g ++ ctx := by
  induction l generalizing ctx i with
  | nil => exact ⟨[], rfl⟩
  | cons s t ih =>
    obtain ⟨g1, hg1⟩ := execStep_ctx tools ctx i s
    obtain ⟨g2, hg2⟩ := ih (execStep tools ctx i s).1 (i + 1)
    refine ⟨g2 ++ g1, ?_⟩
    simp only [runAux]
    rw [hg2, hg1, List.append_assoc]

theorem ctxGet_append_isSome (k : String) (g ctx : Ctx)
    (h : (ctxGet k ctx).isSome) : (ctxGet k (g ++ ctx)).isSome := by
  induction g with
  | nil => simpa
  | cons p t ih =>
    obtain ⟨k', v⟩ := p
    by_cases hk : k = k' <;> simp [ctxGet, hk, ih]

theorem stepKey_ne (i : Nat) : stepKey i ≠ "last_search_result" := by
  intro h
  have h2 : (stepKey i).data.head? = some 's' := by
    show (("step_" ++ toString (i + 1)) ++ "_result").data.head? = some 's'
    rw [String.data_append, String.data_append]
    have h3 : "step_".data = 's' :: "tep_".data := rfl
    rw [h3, List.cons_append, List.cons_append]
    rfl
  rw [h] at h2
  exact absurd h2 (by decide)

theorem execStep_keeps_last (tools : String → String → Option String) (ctx : Ctx)
    (i : Nat) (s : Planner.Step) (h : s.tool ≠ "search_web") :
    ctxGet "last_search_result" (execStep tools ctx i s).1 =
      ctxGet "last_search_result" ctx := by
  have hk : "last_search_result" ≠ stepKey i := fun hh => stepKey_ne i hh.symm
  simp [execStep, h, ctxGet, hk]

theorem runAux_keeps_last (tools : String → String → Option String)
    (l : List Planner.Step) (ctx : Ctx) (i : Nat)
    (h : ∀ s ∈ l, s.tool ≠ "search_web") :
    ctxGet "last_search_result" (runAux tools l ctx i).1 =
      ctxGet "last_search_result" ctx := by
  induction l generalizing ctx i with
  | nil => rfl
  | cons s t ih =>
    simp only [runAux]
    rw [ih (execStep tools ctx i s).1 (i + 1) fun x hx => h x (by simp [hx])]
    exact execStep_keeps_last tools ctx i s (h s (by simp))

theorem execStep_subst (tools : String → String → Option String) (ctx : Ctx)
    (i : Nat) (s : Planner.Step) (v : String) (harg : s.argument = "search results")
    (hctx : ctxGet "last_search_result" ctx = some v) :
    (execStep tools ctx i s).2.argUsed = v := by
  simp [execStep, harg, hctx]

theorem execStep_search_store (tools : String → String → Option String) (ctx : Ctx)
    (i : Nat) (s : Planner.Step) (h : s.tool = "search_web") :
    ctxGet "last_search_result" (execStep tools ctx i s).1 =
      some (execStep tools ctx i s).2.result := by
  simp [execStep, h, ctxGet]

theorem aggregate_eq (results : List String) :
    aggregate results =
      if results.length = 1 then results.headD ""
      else
        String.intercalate "\n\n"
          ((results.enum).map fun p => "Step " ++ toString (p.1 + 1) ++ " result:\n" ++ p.2) := by
  match results with
  | [] => rfl
  | [r] => rfl
  | r1 :: r2 :: rest => rfl

/-- Claim C3: `execute_plan` processes exactly the first `maxSteps`
entries of the plan in order (all of them when the plan is shorter), and
aggregates the results as described: one result is returned verbatim,
otherwise (zero results included) the results are joined by a blank line,
each prefixed by `"Step \x7bn\x7d result:"` and a newline with `n` counted
from 1 in execution order. -/
theorem c3_truncation_and_aggregation (tools : String → String → Option String)
    (maxSteps : Nat) (ctx : Ctx) (steps : List Planner.Step) :
    (execute_plan tools maxSteps ctx steps).outcomes.length = min maxSteps steps.length ∧
      (execute_plan tools maxSteps ctx steps).outcomes.map (fun o => o.tool) =
        (steps.take maxSteps).map (fun s => s.tool) ∧
      (execute_plan tools maxSteps ctx steps).output =
        (if ((execute_plan tools maxSteps ctx steps).outcomes.map fun o => o.result).length = 1
          then ((execute_plan tools maxSteps ctx steps).outcomes.map fun o => o.result).headD ""
          else
            String.intercalate "\n\n"
              ((((execute_plan tools maxSteps ctx steps).outcomes.map fun o => o.result).enum).map
                fun p => "Step " ++ toString (p.1 + 1) ++ " result:\n" ++ p.2)) := by
  refine ⟨?_, ?_, ?_⟩
  · show (runAux tools (steps.take maxSteps) ctx 0).2.length = min maxSteps steps.length
    rw [runAux_length, List.length_take]
  · exact runAux_map_tool tools (steps.take maxSteps) ctx 0
  · exact aggregate_eq _

/-- Claim C2: decompose the executed prefix as `pre ++ s :: rest`.  The
outcome of `s` in the run is its loop-body outcome over the context
reached after `pre` (conjuncts 1-2); immediately after a `search_web`
step runs, the context key `"last_search_result"` equals that step's
recorded result (conjunct 3); and a step whose argument is exactly the
literal `"search results"`, when `"last_search_result"` is present, is
dispatched with the stored text as its actual argument (conjunct 4). -/
theorem c2_context_substitution (tools : String → String → Option String)
    (maxSteps : Nat) (ctx : Ctx) (steps pre rest : List Planner.Step) (s : Planner.Step)
    (hd : steps.take maxSteps = pre ++ s :: rest) :
    (execute_plan tools maxSteps ctx steps).outcomes.get? pre.length =
        some (execStep tools (runAux tools pre ctx 0).1 pre.length s).2 ∧
      (runAux tools (pre ++ [s]) ctx 0).1 =
        (execStep tools (runAux tools pre ctx 0).1 pre.length s).1 ∧
      (s.tool = "search_web" →
        ctxGet "last_search_result"
            (execStep tools (runAux tools pre ctx 0).1 pre.length s).1 =
          some (execStep tools (runAux tools pre ctx 0).1 pre.length s).2.result) ∧
      (∀ v, s.argument = "search results" →
        ctxGet "last_search_result" (runAux tools pre ctx 0).1 = some v →
        (execStep tools (runAux tools pre ctx 0).1 pre.length s).2.argUsed = v) := by
  refine ⟨?_, ?_, fun h => execStep_search_store _ _ _ _ h,
    fun v h1 h2 => execStep_subst _ _ _ _ v h1 h2⟩
  · show (runAux tools (steps.take maxSteps) ctx 0).2.get? pre.length = _
    rw [hd, runAux_append]
    have hlen : (runAux tools pre ctx 0).2.length = pre.length := runAux_length _ _ _ _
    rw [List.get?_append_right (by omega)]
    rw [hlen]
    simp only [Nat.sub_self, Nat.zero_add, runAux]
    rfl
  · rw [runAux_append]
    simp only [List.length_nil, runAux, Nat.zero_add]

/-- Witness for claim C2: after a concrete `search_web` step, the
following `summarize_text` step with literal argument `"search results"`
is dispatched with the stored search result. -/
theorem c2_witness :
    (execStep echoTool
        (runAux echoTool [⟨"search_web", "q"⟩] [] 0).1 1
        ⟨"summarize_text", "search results"⟩).2.argUsed = "R:q" := by
  have h := c2_context_substitution echoTool 10 []
    [⟨"search_web", "q"⟩, ⟨"summarize_text", "search results"⟩]
    [⟨"search_web", "q"⟩] [] ⟨"summarize_text", "search results"⟩ (by decide)
  exact h.2.2.2 "R:q" rfl (by decide)

/-- Counterexample to claim C7 as stated: a tool call returning the empty
string is recorded and aggregated as the empty string, not as the
synthetic placeholder. -/
theorem c7_counterexample :
    (execute_plan emptyTool 10 [] [⟨"summarize_text", "hello"⟩]).output = "" ∧
      ctxGet "step_1_result"
        (execute_plan emptyTool 10 [] [⟨"summarize_text", "hello"⟩]).context = some "" ∧
      ("" : String) ≠ noneResult "summarize_text" := by decide

theorem execStep_result (tools : String → String → Option String) (ctx : Ctx)
    (i : Nat) (s : Planner.Step) :
    (execStep tools ctx i s).2.result =
      match tools s.tool (execStep tools ctx i s).2.argUsed with
      | none => noneResult s.tool
      | some r => r := rfl

/-- Claim C7 (amended): only a null (`None`) tool result is replaced by
the synthetic placeholder naming the tool; any string result — the empty
string included — is recorded and aggregated verbatim. -/
theorem c7_amended_none_replacement (tools : String → String → Option String)
    (ctx : Ctx) (i : Nat) (s : Planner.Step) :
    (tools s.tool (execStep tools ctx i s).2.argUsed = none →
        (execStep tools ctx i s).2.result = noneResult s.tool) ∧
      (∀ r, tools s.tool (execStep tools ctx i s).2.argUsed = some r →
        (execStep tools ctx i s).2.result = r) := by
  constructor
  · intro h
    rw [execStep_result, h]
  · intro r h
    rw [execStep_result, h]

/-- Witness for claim C7 (amended) at a concrete null-returning tool. -/
theorem c7_witness :
    (execStep nullTool [] 0 ⟨"summarize_text", "hello"⟩).2.result =
      noneResult "summarize_text" :=
  (c7_amended_none_replacement nullTool [] 0 ⟨"summarize_text", "hello"⟩).1 rfl

/-- Claim C9: the execution context survives `execute_plan` — every key
present before a call is still present after it (conjunct 1); hence on a
second run over the same context, a `"last_search_result"` left by the
first run is substituted into a step with literal argument
`"search results"` that runs before any `search_web` step of the second
run (conjunct 2). -/
theorem c9_context_persistence (tools : String → String → Option String)
    (maxSteps1 maxSteps2 : Nat) (ctx : Ctx) (steps1 steps2 : List Planner.Step) :
    (∀ k, (ctxGet k ctx).isSome →
        (ctxGet k (execute_plan tools maxSteps1 ctx steps1).context).isSome) ∧
      (∀ v (pre rest : List Planner.Step) (s : Planner.Step),
        ctxGet "last_search_result" (execute_plan tools maxSteps1 ctx steps1).context =
          some v →
        steps2.take maxSteps2 = pre ++ s :: rest →
        (∀ p ∈ pre, p.tool ≠ "search_web") →
        s.argument = "search results" →
        ∃ o, (execute_plan tools maxSteps2
            (execute_plan tools maxSteps1 ctx steps1).context steps2).outcomes.get?
              pre.length = some o ∧ o.argUsed = v) := by
  constructor
  · intro k hk
    obtain ⟨g, hg⟩ := runAux_ctx tools (steps1.take maxSteps1) ctx 0
    show (ctxGet k (runAux tools (steps1.take maxSteps1) ctx 0).1).isSome
    rw [hg]
    exact ctxGet_append_isSome k g ctx hk
  · intro v pre rest s hv hd hpre harg
    refine ⟨(execStep tools
      (runAux tools pre (execute_plan tools maxSteps1 ctx steps1).context 0).1
      pre.length s).2, ?_, ?_⟩
    · show (runAux tools (steps2.take maxSteps2) _ 0).2.get? pre.length = _
      rw [hd, runAux_append]
      have hlen : (runAux tools pre
          (execute_plan tools maxSteps1 ctx steps1).context 0).2.length = pre.length :=
        runAux_length _ _ _ _
      rw [List.get?_append_right (by omega)]
      rw [hlen]
      simp only [Nat.sub_self, Nat.zero_add, runAux]
      rfl
    · refine execStep_subst _ _ _ _ v harg ?_
      rw [runAux_keeps_last tools pre _ 0 hpre]
      exact hv

/-- Witness for claim C9: a second `execute_plan` call on the context
left by a first run substitutes the first run's stored search result. -/
theorem c9_witness :
    (ctxGet "seed"
        (execute_plan echoTool 10 [("seed", "1")] [⟨"search_web", "q"⟩]).context).isSome ∧
      ∃ o, (execute_plan echoTool 10
          (execute_plan echoTool 10 [("seed", "1")] [⟨"search_web", "q"⟩]).context
          [⟨"summarize_text", "search results"⟩]).outcomes.get? 0 = some o ∧
        o.argUsed = "R:q" := by
  have h := c9_context_persistence echoTool 10 10 [("seed", "1")]
    [⟨"search_web", "q"⟩] [⟨"summarize_text", "search results"⟩]
  exact ⟨h.1 "seed" (by decide),
    h.2 "R:q" [] [] ⟨"summarize_text", "search results"⟩ (by decide) rfl
      (by simp) rfl⟩

end Executor

namespace Tools

/-- Claim C8: for every successfully decoded search response,
`search_web` returns the present sections joined by newlines in fixed
priority order — Abstract (prefixed `"Abstract: "`), then Answer
(prefixed `"Answer: "`), then the texts of the first three Related-topic
entries (each prefixed `"Related: "`) — and exactly
`"No detailed results found for '\x7bquery\x7d'"` when no section is
present. -/
theorem sectionsEq (data : SearchData) : codeSections data = specSections data := by
  obtain ⟨ab, an, rt⟩ := data
  unfold codeSections specSections
  cases ab <;> cases an <;> cases rt <;> dsimp only <;> (try split_ifs) <;>
    simp_all [List.append_assoc]

theorem c8_search_format (query : String) (data : SearchData) :
    search_web_format query data =
      if specSections data = [] then "No detailed results found for '" ++ query ++ "'"
      else String.intercalate "\n" (specSections data) := by
  rw [search_web_format, sectionsEq]

end Tools

namespace CLI

/-- Claim C10: every goal whose lowercased text contains one of the math
patterns `"calculate"`, `"compute"`, `"solve"`, `"="`, `"+"`, `"-"`,
`"*"`, `"/"`, `"math"` anywhere — also inside a hyphenated word — is
rejected by the CLI entry point (printed error, exit code 1) before the
Planner or the Executor is constructed. -/
theorem c10_math_pattern_rejection (raw : String)
    (h : ∃ p ∈ mathPatterns, p.data <:+: lowerChars raw.data) :
    validateGoal raw = none := by
  obtain ⟨p, hp, hocc⟩ := h
  have hws : ∀ c ∈ p.data, isPyWs c = false := by
    fin_cases hp <;> decide
  have hocc' : p.data <:+: lowerChars (pyStrip raw.data) := occ_lower_strip hws hocc
  have hmath : mathPatterns.any
      (fun q => decide (q.data <:+: lowerChars (pyStrip raw.data))) = true := by
    rw [List.any_eq_true]
    refine ⟨p, hp, by simpa using hocc'⟩
  simp only [validateGoal]
  by_cases h1 : pyStrip raw.data = []
  · rw [if_pos h1]
  rw [if_neg h1]
  by_cases h2 : (pyStrip raw.data).length < MIN_GOAL_LENGTH
  · rw [if_pos h2]
  rw [if_neg h2]
  by_cases h3 : MAX_GOAL_LENGTH < (pyStrip raw.data).length
  · rw [if_pos h3]
  rw [if_neg h3]
  by_cases h4 : ((pyStrip raw.data).any fun c => invalidChars.contains c) = true
  · rw [if_pos h4]
  rw [if_neg h4, if_pos hmath]

/-- Witness for claim C10: `"Explain the e-commerce market"` contains the
math pattern `"-"` inside a hyphenated word and is rejected. -/
theorem c10_witness : validateGoal "Explain the e-commerce market" = none :=
  c10_math_pattern_rejection "Explain the e-commerce market"
    ⟨"-", by decide, by decide⟩

end CLI

end AgenticPlanner
